import Mathlib

/-!
Shallow embedding of the catalog-commit-api recipe upsert endpoint.

The repository has two handler variants:
* the batch variant (`src/unnamed/part_000`), accepting `{password, recipe}` or
  `{password, recipes: [...]}` and upserting each usable input;
* the single-recipe variant (`src/api/save-recipe.js`), accepting `{password, recipe}`.

JavaScript strings are modelled as Lean `String`; for the string fields of the
loosely typed JS objects the empty string stands for an absent (`undefined`)
field, which is observationally faithful here because the code only ever reads
those fields through truthiness tests (`x || d`, `!x`), equality with other
strings, and string operations under which `undefined` and `""` behave alike
on every path the code takes.
-/

namespace Catalog

/-- JS `s || d` for strings: the empty string is falsy. -/
def strOr (s d : String) : String := if s = "" then d else s

/-- ASCII model of `String.prototype.toLowerCase` (all repository data and all
regex classes involved are ASCII: the source only distinguishes `[a-z0-9]`). -/
def jsLower (c : Char) : Char :=
  if 65 ≤ c.toNat ∧ c.toNat ≤ 90 then Char.ofNat (c.toNat + 32) else c

/-- The regex character class `[a-z0-9]` (the slug regexes run after
`toLowerCase`). -/
def isAlnum (c : Char) : Bool :=
  (97 ≤ c.toNat && c.toNat ≤ 122) || (48 ≤ c.toNat && c.toNat ≤ 57)

/-- ASCII whitespace (space, tab, line feed, carriage return, vertical tab,
form feed), for the model of `String.prototype.trim`. -/
def isWs (c : Char) : Bool :=
  c.toNat == 32 || c.toNat == 9 || c.toNat == 10 || c.toNat == 13 ||
    c.toNat == 11 || c.toNat == 12

/-- Remove one leading hyphen, the `^-` alternative of `replace(/(^-|-$)/g,"")`. -/
def dropHyp : List Char → List Char
  | [] => []
  | c :: r => if c = '-' then r else c :: r

/-- Collapse every maximal run of `[^a-z0-9]` characters into a single hyphen:
the `replace(/[^a-z0-9]+/g, "-")` step.  A non-matching head character emits one
hyphen and swallows the hyphen the rest of its run produced. -/
def collapse : List Char → List Char
  | [] => []
  | c :: cs =>
    if isAlnum c then c :: collapse cs
    else '-' :: dropHyp (collapse cs)

/-- Strip at most one leading and one trailing hyphen: `replace(/(^-|-$)/g,"")`. -/
def stripEdges (l : List Char) : List Char := (dropHyp (dropHyp l).reverse).reverse

/-- Model of `String.prototype.trim`: drop whitespace from both ends. -/
def trimWs (l : List Char) : List Char :=
  ((l.dropWhile isWs).reverse.dropWhile isWs).reverse

/-- Function `slug` from the batch handler (`src/unnamed/part_000`):
`String(s || "").toLowerCase().trim().replace(/[^a-z0-9]+/g,"-").replace(/(^-|-$)/g,"")`. -/
def slugL (l : List Char) : List Char := stripEdges (collapse (trimWs (l.map jsLower)))

/-- Function `slug` of the batch handler on `String`; `String(s || "")` is the identity
on strings, so the model takes a `String` argument directly. -/
def slugStr (s : String) : String := String.mk (slugL s.data)

/-- Function `slugify` from the single-recipe handler (`src/api/save-recipe.js`):
`String(s).toLowerCase().replace(/[^a-z0-9]+/g,'-').replace(/(^-|-$)/g,'')` —
the same pipeline without the `trim` step. -/
def slugifyL (l : List Char) : List Char := stripEdges (collapse (l.map jsLower))

/-- Function `slugify` of the single-recipe handler on `String`. -/
def slugifyStr (s : String) : String := String.mk (slugifyL s.data)

/-- Structural form of removing one trailing hyphen; equal to
`fun l => (dropHyp l.reverse).reverse` and used to reason about `stripEdges`. -/
def stripT : List Char → List Char
  | [] => []
  | [c] => if c = '-' then [] else [c]
  | c :: cs => c :: stripT cs

/-- Modelled from the spec (§3, identifier derivation): lowercase, trim,
collapse runs of non-alphanumeric characters to a single hyphen, strip
leading/trailing hyphens.  Stated separately from `slugL` so both source
variants can be compared against the spec wording. -/
def slugSpecL (l : List Char) : List Char :=
  stripEdges (collapse (trimWs (l.map jsLower)))

/-- The spec-side slug on `String`. -/
def slugSpecStr (s : String) : String := String.mk (slugSpecL s.data)

/-- A JS field that may hold a string, an array of strings, or be absent/falsy
(used for `profile` and `tags`, which the normalizers inspect with
`Array.isArray` and truthiness). -/
inductive JsStrField where
  | missing : JsStrField
  | str (s : String) : JsStrField
  | arr (l : List String) : JsStrField
deriving DecidableEq, Repr

/-- One element of a raw `ingredients` array: a JS array of strings, an
object with `amount`/`item` fields (empty string models an absent field), or
any other value coerced through `String(p || "")`. -/
inductive IngIn where
  | arr (l : List String) : IngIn
  | obj (amount item : String) : IngIn
  | scalar (s : String) : IngIn
deriving DecidableEq, Repr

/-- A raw, loosely typed recipe input object.  String fields use `""` for an
absent field; `base` and `ingredients` use `[]` for an absent or falsy field,
which is faithful because `r.base || []` and the `Array.isArray` guard send
both cases to the empty array. -/
structure RawRecipe where
  id : String := ""
  name : String := ""
  base : List String := []
  profile : JsStrField := .missing
  sweetness : String := ""
  ingredients : List IngIn := []
  method : String := ""
  glass : String := ""
  garnish : String := ""
  tags : JsStrField := .missing
deriving DecidableEq, Repr

/-- Canonical record produced by the batch handler's `normalize`
(`src/unnamed/part_000`).  Ingredients are always two-string pairs there. -/
structure RecipeB where
  id : String
  name : String
  base : List String
  profile : List String
  sweetness : String
  ingredients : List (String × String)
  method : String
  glass : String
  garnish : String
  tags : List String
deriving DecidableEq, Repr

/-- The value stored in `tags` by the single-recipe handler: `recipe.tags || []`
passes a truthy non-array scalar through unchanged. -/
inductive TagsVal where
  | arr (l : List String) : TagsVal
  | str (s : String) : TagsVal
deriving DecidableEq, Repr

/-- Canonical record produced by the single-recipe handler
(`src/api/save-recipe.js`).  Ingredient arrays pass through unchanged, so an
ingredient is an arbitrary list of strings. -/
structure RecipeS where
  id : String
  name : String
  base : List String
  profile : List String
  sweetness : String
  ingredients : List (List String)
  method : String
  glass : String
  garnish : String
  tags : TagsVal
deriving DecidableEq, Repr

/-- Coercion `Array.isArray(x) ? x : (x ? [x] : [])`, used for `profile` in both
variants and for `tags` in the batch variant. -/
def wrapField : JsStrField → List String
  | .missing => []
  | .str s => if s = "" then [] else [s]
  | .arr l => l

/-- Batch-variant ingredient normalization:
`Array.isArray(p) ? [p[0] || "", p[1] || ""] : (object ? [p.amount || "", p.item || ""] : ["", String(p || "")])`. -/
def normIngB : IngIn → String × String
  | .arr l => (l.getD 0 "", l.getD 1 "")
  | .obj a i => (a, i)
  | .scalar s => ("", s)

/-- The batch handler's `normalize` (`src/unnamed/part_000`, lines 91–116). -/
def normalize (r : RawRecipe) : RecipeB :=
  { id := strOr r.id (slugStr r.name)
  , name := r.name
  , base := r.base.map (fun b => String.mk (b.data.map jsLower))
  , profile := wrapField r.profile
  , sweetness := strOr r.sweetness "balanced"
  , ingredients := r.ingredients.map normIngB
  , method := r.method
  , glass := r.glass
  , garnish := r.garnish
  , tags := wrapField r.tags }

/-- Single-variant ingredient normalization:
`Array.isArray(p) ? p : [p.amount || "", p.item || ""]`; on a string scalar the
property reads `p.amount`/`p.item` are `undefined`, giving `["", ""]`. -/
def normIngS : IngIn → List String
  | .arr l => l
  | .obj a i => [a, i]
  | .scalar _ => ["", ""]

/-- Computation `recipe.tags || []` in the single-recipe handler. -/
def tagsOrEmpty : JsStrField → TagsVal
  | .missing => .arr []
  | .str s => if s = "" then .arr [] else .str s
  | .arr l => .arr l

/-- The single-recipe handler's inline `normalized` object
(`src/api/save-recipe.js`, lines 29–41).  Note `id` is always
`slugify(recipe.name)`: the raw `id` field is never consulted. -/
def normalizeS (r : RawRecipe) : RecipeS :=
  { id := slugifyStr r.name
  , name := r.name
  , base := r.base.map (fun b => String.mk (b.data.map jsLower))
  , profile := wrapField r.profile
  , sweetness := strOr r.sweetness "balanced"
  , ingredients := r.ingredients.map normIngS
  , method := r.method
  , glass := r.glass
  , garnish := r.garnish
  , tags := tagsOrEmpty r.tags }

/-- Read a batch-variant canonical record back as a raw input object: this is
how the JSON the handler writes looks when it is submitted again. -/
def toRaw (n : RecipeB) : RawRecipe :=
  { id := n.id
  , name := n.name
  , base := n.base
  , profile := .arr n.profile
  , sweetness := n.sweetness
  , ingredients := n.ingredients.map (fun p => .arr [p.1, p.2])
  , method := n.method
  , glass := n.glass
  , garnish := n.garnish
  , tags := .arr n.tags }

/-- Read a single-variant canonical record back as a raw input object. -/
def toRawS (n : RecipeS) : RawRecipe :=
  { id := n.id
  , name := n.name
  , base := n.base
  , profile := .arr n.profile
  , sweetness := n.sweetness
  , ingredients := n.ingredients.map .arr
  , method := n.method
  , glass := n.glass
  , garnish := n.garnish
  , tags := match n.tags with | .arr l => .arr l | .str s => .str s }

/-- Derived id of a stored record, batch variant:
`(x.id || slug(x.name || ""))` in the `findIndex` callback. -/
def findId (x : RecipeB) : String := strOr x.id (slugStr x.name)

/-- Derived id of a stored record, single variant:
`(r.id || slugify(r.name || ""))` in the `findIndex` callback. -/
def findIdS (x : RecipeS) : String := strOr x.id (slugifyStr x.name)

/-- The object spread `{ ...list[idx], ...n }` of the batch handler.  The
candidate `n` is always a `normalize` output, which defines every canonical
field, so each canonical field comes from the candidate; keys outside the
canonical shape are not part of the model. -/
def mergeB (_old cand : RecipeB) : RecipeB :=
  { id := cand.id
  , name := cand.name
  , base := cand.base
  , profile := cand.profile
  , sweetness := cand.sweetness
  , ingredients := cand.ingredients
  , method := cand.method
  , glass := cand.glass
  , garnish := cand.garnish
  , tags := cand.tags }

/-- The object spread `{ ...list[idx], ...normalized }` of the single-recipe
handler; `normalized` likewise defines every canonical field. -/
def mergeS (_old cand : RecipeS) : RecipeS :=
  { id := cand.id
  , name := cand.name
  , base := cand.base
  , profile := cand.profile
  , sweetness := cand.sweetness
  , ingredients := cand.ingredients
  , method := cand.method
  , glass := cand.glass
  , garnish := cand.garnish
  , tags := cand.tags }

/-- One upsert into the collection: replace the first record whose derived id
matches the candidate's id, else append (`src/unnamed/part_000`, lines 125–131). -/
def upsertOne (list : List RecipeB) (n : RecipeB) : List RecipeB :=
  match list.findIdx? (fun x => findId x == n.id) with
  | some i => list.set i (mergeB ((list[i]?).getD n) n)
  | none => list ++ [n]

/-- One iteration of the batch handler's upsert loop (`src/unnamed/part_000`,
lines 119–133): skip a falsy element or one without a truthy `name`, otherwise
normalize, upsert, bump the counter and record the id. -/
def upsertStep (acc : List RecipeB × Nat × List String) (raw : Option RawRecipe) :
    List RecipeB × Nat × List String :=
  match raw with
  | none => acc
  | some r =>
    if r.name = "" then acc
    else
      let n := normalize r
      (upsertOne acc.1 n, acc.2.1 + 1, acc.2.2 ++ [n.id])

/-- The batch handler's upsert loop: fold `upsertStep` over the incoming
array; returns the updated collection, the upsert counter, and the touched ids
in input order. -/
def upsertAll (list : List RecipeB) (incoming : List (Option RawRecipe)) :
    List RecipeB × Nat × List String :=
  incoming.foldl upsertStep (list, 0, [])

/-- Lexicographic code-point comparison of character lists, the model of the
comparator order underlying `localeCompare`. -/
def lexLe : List Char → List Char → Bool
  | [], _ => true
  | c :: cs, d :: ds =>
    if c.toNat < d.toNat then true
    else if d.toNat < c.toNat then false
    else lexLe cs ds
  | _ :: _, [] => false

/-- Sorting step `list.sort((a, b) => (a.name || "").localeCompare(b.name || ""))`.
Modelled from the spec: `localeCompare`'s locale-aware order is an external
capability of the runtime, and the sort algorithm is the engine's stable sort;
the model uses a stable insertion sort under code-point order on the names.  No
claim depends on the particular order, only on the sort being a permutation. -/
def sortByName (list : List RecipeB) : List RecipeB :=
  List.insertionSort (fun a b => lexLe a.name.data b.name.data = true) list

/-- Single-variant sort, same comparator. -/
def sortByNameS (list : List RecipeS) : List RecipeS :=
  List.insertionSort (fun a b => lexLe a.name.data b.name.data = true) list

/-- Environment configuration.  `""` models an unset environment variable; the
code reads every one of these through truthiness or `||` defaults, under which
`undefined` and `""` agree. -/
structure Config where
  allowedOrigin : String := ""
  adminPassword : String := ""
  owner : String := ""
  repo : String := ""
  token : String := ""
  filePath : String := ""
  branch : String := ""
deriving DecidableEq, Repr

/-- The parts of the incoming HTTP request the handlers read.  `origin` models
`req.headers.origin || ""`; `recipes = some l` models a body whose `recipes`
field is an array (`Array.isArray`), `none` an absent or non-array value;
`recipe = none` models an absent or falsy `recipe` field. -/
structure Request where
  method : String := "POST"
  origin : String := ""
  password : String := ""
  recipe : Option RawRecipe := none
  recipes : Option (List (Option RawRecipe)) := none

/-- Outcome of the GET against the store, indexed by the record type the body
decodes to.  `found parsed sha`: HTTP 200, where `parsed = some l` means the
base64-decoded content was JSON that parsed to an array (`JSON.parse` is the
platform's, modelled as an oracle) and `none` means parsing failed or the value
was not an array; `notFound`: HTTP 404; `failed`: any other status. -/
inductive FetchResult (α : Type) where
  | found (parsed : Option (List α)) (sha : String) : FetchResult α
  | notFound : FetchResult α
  | failed (detail : String) : FetchResult α

/-- The PUT body the handler submits: commit message, the collection that gets
serialized, target branch, and the optional version token (`sha`). -/
structure PutReq (α : Type) where
  message : String
  content : List α
  branch : String
  sha : Option String
deriving Repr, DecidableEq

/-- Response bodies the handlers produce. -/
inductive RespBody where
  | empty : RespBody
  | err (code : String) (detail : Option String) : RespBody
  | okBatch (count : Nat) (ids : List String) : RespBody
  | okSingle (id : String) : RespBody
deriving DecidableEq, Repr

/-- Result of one handler run: HTTP status, body, whether the store was read
(`fetched`), and the PUT request submitted to the store, if any. -/
structure HResult (α : Type) where
  status : Nat
  body : RespBody
  fetched : Bool
  put : Option (PutReq α)
deriving DecidableEq

/-- Authentication check of both handlers:
`!password || password !== process.env.ADMIN_PASSWORD` negated. -/
def authOk (password adminPassword : String) : Prop :=
  password ≠ "" ∧ password = adminPassword

instance (p a : String) : Decidable (authOk p a) := by
  unfold authOk; infer_instance

/-- List `incoming` as computed by the batch handler (`src/unnamed/part_000`,
lines 43–45): the `recipes` array when it is one, else the singleton of a
truthy `recipe`, else empty. -/
def incomingOf (req : Request) : List (Option RawRecipe) :=
  match req.recipes with
  | some l => l
  | none => match req.recipe with
    | some r => [some r]
    | none => []

/-- Commit phase of the batch handler: upsert, sort, build the PUT body, run
the PUT (status and failure text are oracles), and answer. -/
def commitB (cfg : Config) (incoming : List (Option RawRecipe)) (list : List RecipeB)
    (shaOpt : Option String) (putStatus : Nat) (putText : String) : HResult RecipeB :=
  let r := upsertAll list incoming
  let sorted := sortByName r.1
  let msgName := match incoming.head? with
    | some (some raw) => strOr raw.name "1 item"
    | _ => "1 item"
  let message := if r.2.1 = 1 then "Upsert recipe: " ++ msgName
    else "Upsert " ++ toString r.2.1 ++ " recipes"
  let preq : PutReq RecipeB := ⟨message, sorted, strOr cfg.branch "main", shaOpt⟩
  if putStatus < 200 ∨ 300 ≤ putStatus then
    ⟨500, .err "github-write-failed" (some putText), true, some preq⟩
  else
    ⟨200, .okBatch r.2.1 r.2.2, true, some preq⟩

/-- The batch handler (`src/unnamed/part_000`), from the method check to the
response.  The store is an oracle: `fetchRes` is what its GET would answer,
`putStatus`/`putText` what its PUT would answer. -/
def handlerB (cfg : Config) (req : Request) (fetchRes : FetchResult RecipeB)
    (putStatus : Nat) (putText : String) : HResult RecipeB :=
  if req.method = "OPTIONS" then ⟨200, .empty, false, none⟩
  else if req.method ≠ "POST" then ⟨405, .err "method-not-allowed" none, false, none⟩
  else if cfg.allowedOrigin ≠ "" ∧ req.origin ≠ "" ∧ req.origin ≠ cfg.allowedOrigin then
    ⟨403, .err "forbidden-origin" none, false, none⟩
  else if ¬ authOk req.password cfg.adminPassword then
    ⟨401, .err "unauthorized" none, false, none⟩
  else
    let incoming := incomingOf req
    if incoming.isEmpty then ⟨400, .err "no-recipes" none, false, none⟩
    else if cfg.owner = "" ∨ cfg.repo = "" ∨ cfg.token = "" then
      ⟨500, .err "missing-github-config" none, false, none⟩
    else
      match fetchRes with
      | .failed detail => ⟨500, .err "github-read-failed" (some detail), true, none⟩
      | .found parsed sha =>
        commitB cfg incoming (parsed.getD []) (if sha = "" then none else some sha)
          putStatus putText
      | .notFound => commitB cfg incoming [] none putStatus putText

/-- One upsert into the single-variant collection (`src/api/save-recipe.js`,
lines 74–76): replace the first record whose derived id matches, else append. -/
def upsertOneS (list : List RecipeS) (n : RecipeS) : List RecipeS :=
  match list.findIdx? (fun x => findIdS x == n.id) with
  | some i => list.set i (mergeS ((list[i]?).getD n) n)
  | none => list ++ [n]

/-- Commit phase of the single-recipe handler: locate, merge or append, sort,
PUT, answer. -/
def commitS (cfg : Config) (normalized : RecipeS) (list : List RecipeS)
    (shaOpt : Option String) (putStatus : Nat) (putText : String) : HResult RecipeS :=
  let idx := list.findIdx? (fun x => findIdS x == normalized.id)
  let merged := upsertOneS list normalized
  let sorted := sortByNameS merged
  let message := match idx with
    | some _ => "Update recipe: " ++ normalized.name
    | none => "Add recipe: " ++ normalized.name
  let preq : PutReq RecipeS := ⟨message, sorted, strOr cfg.branch "main", shaOpt⟩
  if 200 ≤ putStatus ∧ putStatus < 300 then
    ⟨200, .okSingle normalized.id, true, some preq⟩
  else
    ⟨500, .err "github-write-failed" (some putText), true, some preq⟩

/-- The single-recipe handler (`src/api/save-recipe.js`).  It has no origin
allowlist; `recipe = none` models an absent or falsy `recipe` field. -/
def handlerS (cfg : Config) (req : Request) (fetchRes : FetchResult RecipeS)
    (putStatus : Nat) (putText : String) : HResult RecipeS :=
  if req.method = "OPTIONS" then ⟨200, .empty, false, none⟩
  else if req.method ≠ "POST" then ⟨405, .err "method-not-allowed" none, false, none⟩
  else if ¬ authOk req.password cfg.adminPassword then
    ⟨401, .err "unauthorized" none, false, none⟩
  else
    match req.recipe with
    | none => ⟨400, .err "bad-recipe" none, false, none⟩
    | some r =>
      if r.name = "" then ⟨400, .err "bad-recipe" none, false, none⟩
      else if cfg.owner = "" ∨ cfg.repo = "" ∨ cfg.token = "" then
        ⟨500, .err "missing-github-config" none, false, none⟩
      else
        match fetchRes with
        | .failed detail => ⟨500, .err "github-read-failed" (some detail), true, none⟩
        | .found parsed sha =>
          commitS cfg (normalizeS r) (parsed.getD [])
            (if sha = "" then none else some sha) putStatus putText
        | .notFound => commitS cfg (normalizeS r) [] none putStatus putText

/-- Whether the upsert loop accepts a batch element:
`!raw || !raw.name` negated (`src/unnamed/part_000`, line 121). -/
def isUsable : Option RawRecipe → Bool
  | some r => r.name != ""
  | none => false

/-- Derived id contributed to `upsertIds` by a batch element, `none` for a
skipped element. -/
def pickId : Option RawRecipe → Option String
  | some r => if r.name = "" then none else some (normalize r).id
  | none => none

/-- Minimal raw input used by the spec scenario of claim C1. -/
def minimalMartini : RawRecipe := { name := "Martini" }

/-- A fully populated stored record whose derived id is `"martini"`. -/
def fullMartini : RecipeB :=
  { id := "martini"
  , name := "Martini"
  , base := ["gin"]
  , profile := ["dry"]
  , sweetness := "dry"
  , ingredients := [("2 oz", "Gin"), ("1 oz", "Dry Vermouth")]
  , method := "stir"
  , glass := "coupe"
  , garnish := "olive"
  , tags := ["classic"] }

/-- Single-variant counterpart of `fullMartini`. -/
def fullMartiniS : RecipeS :=
  { id := "martini"
  , name := "Martini"
  , base := ["gin"]
  , profile := ["dry"]
  , sweetness := "dry"
  , ingredients := [["2 oz", "Gin"], ["1 oz", "Dry Vermouth"]]
  , method := "stir"
  , glass := "coupe"
  , garnish := "olive"
  , tags := .arr ["classic"] }

/-- A configuration with the secret and all store coordinates present. -/
def cfgOk : Config :=
  { adminPassword := "pw", owner := "o", repo := "r", token := "t" }

/-- A raw input exercising a truthy `id` that differs from the name's slug. -/
def customIdMartini : RawRecipe := { id := "custom", name := "Martini" }

/-- A batch request with two usable inputs around a skipped `null` element. -/
def reqTwoOfThree : Request :=
  { password := "pw"
  , recipes := some [some { name := "Banana Daiquiri" }, none, some { name := "Mai Tai" }] }

/-- An authenticated batch request whose single element is an object without a
name, hence unusable. -/
def reqNamelessBatch : Request :=
  { password := "pw", recipes := some [some {}] }

/-- An authenticated single-recipe request for a new record. -/
def reqMargarita : Request :=
  { password := "pw", recipe := some { name := "Margarita" } }

/-- A fetch answer for an existing stored file. -/
def fetchFoundMartini : FetchResult RecipeB := .found (some [fullMartini]) "abc123"

/-- The PUT request the batch handler submits for `reqMargarita` against
`fetchFoundMartini` (default value is irrelevant: the handler does commit). -/
def preqMargarita : PutReq RecipeB :=
  ((handlerB cfgOk reqMargarita fetchFoundMartini 200 "").put).getD ⟨"", [], "", none⟩

/-- First of two raw inputs whose names slugify identically. -/
def rawDryFirst : RawRecipe := { name := "Dry Martini", sweetness := "dry" }

/-- Second of two raw inputs whose names slugify identically. -/
def rawDrySecond : RawRecipe := { name := "Dry, Martini!", sweetness := "sweet" }

/-! ### Lemmas about the slug pipeline -/

theorem isAlnum_ne_hyphen {c : Char} (h : isAlnum c = true) : c ≠ '-' := by
  intro e
  subst e
  exact absurd h (by decide)

theorem isWs_not_alnum {c : Char} (h : isWs c = true) : isAlnum c = false := by
  have hle : c.toNat ≤ 32 := by
    unfold isWs at h
    simp only [Bool.or_eq_true, beq_iff_eq] at h
    omega
  have h1 : ¬ 97 ≤ c.toNat := by omega
  have h2 : ¬ 48 ≤ c.toNat := by omega
  simp only [isAlnum, Bool.or_eq_false_iff, Bool.and_eq_false_iff,
    decide_eq_false_iff_not]
  exact ⟨Or.inl h1, Or.inl h2⟩

theorem collapse_ne_nil {l : List Char} (h : l ≠ []) : collapse l ≠ [] := by
  cases l with
  | nil => exact absurd rfl h
  | cons c cs =>
    unfold collapse
    split <;> simp

theorem dropHyp_cons_hyp (l : List Char) : dropHyp ('-' :: l) = l := by
  simp [dropHyp]

theorem dropHyp_cons_ne {c : Char} (h : c ≠ '-') (l : List Char) :
    dropHyp (c :: l) = c :: l := by
  simp [dropHyp, h]

theorem dropHyp_append {y : List Char} (h : y ≠ []) (z : List Char) :
    dropHyp (y ++ z) = dropHyp y ++ z := by
  cases y with
  | nil => exact absurd rfl h
  | cons a as =>
    by_cases ha : a = '-'
    · subst ha; simp [dropHyp]
    · simp [dropHyp, ha]

theorem stripT_cons {x : List Char} (a : Char) (h : x ≠ []) :
    stripT (a :: x) = a :: stripT x := by
  cases x with
  | nil => exact absurd rfl h
  | cons b bs => rfl

theorem rev_dropHyp_rev (x : List Char) : (dropHyp x.reverse).reverse = stripT x := by
  induction x with
  | nil => rfl
  | cons c cs ih =>
    cases cs with
    | nil =>
      show (dropHyp [c]).reverse = stripT [c]
      by_cases hc : c = '-'
      · subst hc; rfl
      · simp [dropHyp, stripT, hc]
    | cons b bs =>
      have hne : (b :: bs).reverse ≠ [] := by simp
      calc (dropHyp (c :: b :: bs).reverse).reverse
          = (dropHyp ((b :: bs).reverse ++ [c])).reverse := by rw [List.reverse_cons]
        _ = (dropHyp (b :: bs).reverse ++ [c]).reverse := by rw [dropHyp_append hne]
        _ = c :: (dropHyp (b :: bs).reverse).reverse := by simp
        _ = c :: stripT (b :: bs) := by rw [ih]
        _ = stripT (c :: b :: bs) := (stripT_cons c (by simp)).symm

theorem stripEdges_eq (l : List Char) : stripEdges l = stripT (dropHyp l) := by
  unfold stripEdges
  rw [rev_dropHyp_rev]

theorem stripT_dropHyp_comm (x : List Char) : stripT (dropHyp x) = dropHyp (stripT x) := by
  match x with
  | [] => rfl
  | [c] =>
    by_cases hc : c = '-'
    · subst hc; rfl
    · simp [dropHyp, stripT, hc]
  | a :: b :: cs =>
    have hst : ∀ d : Char, stripT (d :: b :: cs) = d :: stripT (b :: cs) :=
      fun d => stripT_cons d (by simp)
    by_cases ha : a = '-'
    · subst ha
      rw [dropHyp_cons_hyp, hst, dropHyp_cons_hyp]
    · rw [dropHyp_cons_ne ha, hst, dropHyp_cons_ne ha]

theorem stripT_collapse_snoc (c : Char) (hc : isAlnum c = false) :
    ∀ l : List Char, stripT (collapse (l ++ [c])) = stripT (collapse l) := by
  intro l
  induction l with
  | nil => simp [collapse, hc, dropHyp, stripT]
  | cons a as ih =>
    by_cases ha : isAlnum a = true
    · have hane : a ≠ '-' := isAlnum_ne_hyphen ha
      cases as with
      | nil => simp [collapse, ha, hc, dropHyp, stripT, hane]
      | cons b bs =>
        have h1 : collapse ((b :: bs) ++ [c]) ≠ [] := collapse_ne_nil (by simp)
        have h2 : collapse (b :: bs) ≠ [] := collapse_ne_nil (by simp)
        calc stripT (collapse ((a :: b :: bs) ++ [c]))
            = stripT (a :: collapse ((b :: bs) ++ [c])) := by simp [collapse, ha]
          _ = a :: stripT (collapse ((b :: bs) ++ [c])) := stripT_cons a h1
          _ = a :: stripT (collapse (b :: bs)) := by rw [ih]
          _ = stripT (a :: collapse (b :: bs)) := (stripT_cons a h2).symm
          _ = stripT (collapse (a :: b :: bs)) := by simp [collapse, ha]
    · have ha' : isAlnum a = false := by simpa using ha
      cases as with
      | nil => simp [collapse, ha', hc, dropHyp, stripT]
      | cons b bs =>
        by_cases hb : isAlnum b = true
        · have hbne : b ≠ '-' := isAlnum_ne_hyphen hb
          calc stripT (collapse ((a :: b :: bs) ++ [c]))
              = stripT ('-' :: dropHyp (b :: collapse (bs ++ [c]))) := by
                simp [collapse, ha', hb]
            _ = stripT ('-' :: b :: collapse (bs ++ [c])) := by
                rw [dropHyp_cons_ne hbne]
            _ = '-' :: stripT (b :: collapse (bs ++ [c])) := stripT_cons _ (by simp)
            _ = '-' :: stripT (collapse ((b :: bs) ++ [c])) := by simp [collapse, hb]
            _ = '-' :: stripT (collapse (b :: bs)) := by rw [ih]
            _ = '-' :: stripT (b :: collapse bs) := by simp [collapse, hb]
            _ = stripT ('-' :: b :: collapse bs) := (stripT_cons _ (by simp)).symm
            _ = stripT ('-' :: dropHyp (b :: collapse bs)) := by rw [dropHyp_cons_ne hbne]
            _ = stripT (collapse (a :: b :: bs)) := by simp [collapse, ha', hb]
        · have hb' : isAlnum b = false := by simpa using hb
          calc stripT (collapse ((a :: b :: bs) ++ [c]))
              = stripT ('-' :: dropHyp ('-' :: dropHyp (collapse (bs ++ [c])))) := by
                simp [collapse, ha', hb']
            _ = stripT ('-' :: dropHyp (collapse (bs ++ [c]))) := by
                rw [dropHyp_cons_hyp]
            _ = stripT (collapse ((b :: bs) ++ [c])) := by simp [collapse, hb']
            _ = stripT (collapse (b :: bs)) := by rw [ih]
            _ = stripT ('-' :: dropHyp (collapse bs)) := by simp [collapse, hb']
            _ = stripT ('-' :: dropHyp ('-' :: dropHyp (collapse bs))) := by
                rw [dropHyp_cons_hyp]
            _ = stripT (collapse (a :: b :: bs)) := by simp [collapse, ha', hb']

theorem trimLeft_dropHyp_collapse :
    ∀ l : List Char, dropHyp (collapse (l.dropWhile isWs)) = dropHyp (collapse l) := by
  intro l
  induction l with
  | nil => rfl
  | cons c cs ih =>
    by_cases h : isWs c = true
    · have hna := isWs_not_alnum h
      rw [List.dropWhile_cons, if_pos h, ih]
      simp [collapse, hna, dropHyp]
    · rw [List.dropWhile_cons, if_neg h]

theorem trimRight_stripT_collapse :
    ∀ rl : List Char,
      stripT (collapse ((rl.dropWhile isWs).reverse)) = stripT (collapse rl.reverse) := by
  intro rl
  induction rl with
  | nil => rfl
  | cons w rs ih =>
    by_cases h : isWs w = true
    · have hna := isWs_not_alnum h
      rw [List.dropWhile_cons, if_pos h, ih, List.reverse_cons,
        stripT_collapse_snoc w hna rs.reverse]
    · rw [List.dropWhile_cons, if_neg h]

theorem slugifyL_eq_slugL (l : List Char) : slugifyL l = slugL l := by
  unfold slugifyL slugL
  generalize l.map jsLower = m
  rw [stripEdges_eq, stripEdges_eq]
  unfold trimWs
  rw [stripT_dropHyp_comm, stripT_dropHyp_comm]
  have h1 := trimRight_stripT_collapse ((m.dropWhile isWs).reverse)
  rw [List.reverse_reverse] at h1
  rw [h1, ← stripT_dropHyp_comm, ← stripT_dropHyp_comm, trimLeft_dropHyp_collapse]

theorem toNat_ofNat_valid (n : Nat) (h : n < 55296) : (Char.ofNat n).toNat = n := by
  have hv : n.isValidChar := Or.inl h
  simp [Char.ofNat, hv, Char.ofNatAux, Char.toNat, UInt32.toNat, BitVec.toNat_ofNatLt]

theorem jsLower_idem (c : Char) : jsLower (jsLower c) = jsLower c := by
  unfold jsLower
  by_cases h : 65 ≤ c.toNat ∧ c.toNat ≤ 90
  · rw [if_pos h, if_neg]
    rw [toNat_ofNat_valid (c.toNat + 32) (by omega)]
    omega
  · rw [if_neg h, if_neg h]

theorem strOr_idem (s d : String) : strOr (strOr s d) d = strOr s d := by
  by_cases hs : s = ""
  · subst hs
    by_cases hd : d = "" <;> simp [strOr, hd]
  · simp [strOr, hs]

/-! ### Claim theorems -/

/-- C8: the slug function lowercases its input, trims it, collapses every run
of non-alphanumeric characters to a single hyphen and strips leading and
trailing hyphens (stated as agreement with the spec-worded pipeline
`slugSpecStr`), with `slug "Old Fashioned" = "old-fashioned"` and
`slug "  A & B!! " = "a-b"`; all of it holds in both handler variants. -/
theorem C8_slug_characterization :
    (∀ s : String, slugStr s = slugSpecStr s) ∧
    (∀ s : String, slugifyStr s = slugSpecStr s) ∧
    slugStr "Old Fashioned" = "old-fashioned" ∧
    slugStr "  A & B!! " = "a-b" ∧
    slugifyStr "Old Fashioned" = "old-fashioned" ∧
    slugifyStr "  A & B!! " = "a-b" := by
  refine ⟨fun s => rfl, fun s => ?_, by decide, by decide, by decide, by decide⟩
  show String.mk (slugifyL s.data) = String.mk (slugSpecL s.data)
  rw [slugifyL_eq_slugL]
  rfl

/-- C2 counterexample: in the single-recipe variant the truthy raw id
`"custom"` is ignored — the canonical id is `slugify("Martini") = "martini"`,
not the raw id, refuting the claim for that variant. -/
theorem C2_counterexample :
    customIdMartini.id = "custom" ∧ customIdMartini.id ≠ "" ∧
    (normalizeS customIdMartini).id = "martini" ∧
    (normalizeS customIdMartini).id ≠ customIdMartini.id := by decide

/-- C2 amended: in the batch variant the canonical id is the raw `id` when
truthy and `slug(raw.name)` otherwise; the single-recipe variant always
assigns `slugify(raw.name)` and never consults the raw `id`. -/
theorem C2_amended_id_derivation :
    (∀ r : RawRecipe, (normalize r).id = if r.id = "" then slugStr r.name else r.id) ∧
    (∀ r : RawRecipe, (normalizeS r).id = slugifyStr r.name) := by
  constructor
  · intro r
    simp [normalize, strOr]
  · intro r
    rfl

/-- C9: normalization is idempotent for every raw input with a name, in both
handler variants: re-normalizing the written-out canonical record yields the
same record. -/
theorem C9_normalize_idempotent :
    (∀ r : RawRecipe, r.name ≠ "" → normalize (toRaw (normalize r)) = normalize r) ∧
    (∀ r : RawRecipe, r.name ≠ "" → normalizeS (toRawS (normalizeS r)) = normalizeS r) := by
  constructor
  · intro r _h
    simp only [normalize, toRaw, wrapField, RecipeB.mk.injEq, and_true, true_and]
    refine ⟨strOr_idem r.id (slugStr r.name), ?_, strOr_idem r.sweetness "balanced", ?_⟩
    · rw [List.map_map]
      apply List.map_congr_left
      intro b _
      show String.mk ((String.mk (b.data.map jsLower)).data.map jsLower)
          = String.mk (b.data.map jsLower)
      rw [show (String.mk (b.data.map jsLower)).data = b.data.map jsLower from rfl,
        List.map_map]
      congr 1
      apply List.map_congr_left
      intro c _
      exact jsLower_idem c
    · rw [List.map_map]
      have he : (normIngB ∘ fun p : String × String => IngIn.arr [p.1, p.2]) = id := by
        funext p
        cases p
        rfl
      rw [he, List.map_id]
  · intro r _h
    simp only [normalizeS, toRawS, wrapField, RecipeS.mk.injEq, and_true, true_and]
    refine ⟨?_, strOr_idem r.sweetness "balanced", ?_, ?_⟩
    · rw [List.map_map]
      apply List.map_congr_left
      intro b _
      show String.mk ((String.mk (b.data.map jsLower)).data.map jsLower)
          = String.mk (b.data.map jsLower)
      rw [show (String.mk (b.data.map jsLower)).data = b.data.map jsLower from rfl,
        List.map_map]
      congr 1
      apply List.map_congr_left
      intro c _
      exact jsLower_idem c
    · rw [List.map_map]
      have he : (normIngS ∘ IngIn.arr) = id := by
        funext l
        rfl
      rw [he, List.map_id]
    · cases ht : r.tags with
      | missing => rfl
      | str s =>
        by_cases hs : s = ""
        · subst hs; rfl
        · simp [tagsOrEmpty, hs]
      | arr l => rfl

/-- C9 witness: idempotence applied to a concrete raw input with a name, in
both variants. -/
theorem C9_witness :
    normalize (toRaw (normalize customIdMartini)) = normalize customIdMartini ∧
    normalizeS (toRawS (normalizeS customIdMartini)) = normalizeS customIdMartini :=
  ⟨C9_normalize_idempotent.1 customIdMartini (by decide),
   C9_normalize_idempotent.2 customIdMartini (by decide)⟩

/-- C10: in the batch variant, whenever the body's `recipes` field is an
array, the `recipe` field is ignored entirely, and in particular a body
carrying a valid `recipe` together with `recipes: []` is rejected with 400
`no-recipes` without any store write. -/
theorem C10_recipes_overrides_recipe :
    (∀ (cfg : Config) (m o pw : String) (r1 r2 : Option RawRecipe)
      (l : List (Option RawRecipe)) (fr : FetchResult RecipeB) (ps : Nat) (pt : String),
      handlerB cfg ⟨m, o, pw, r1, some l⟩ fr ps pt =
        handlerB cfg ⟨m, o, pw, r2, some l⟩ fr ps pt) ∧
    handlerB cfgOk { password := "pw", recipe := some minimalMartini, recipes := some [] }
        (.found (some [fullMartini]) "sha1") 200 "" =
      ⟨400, .err "no-recipes" none, false, none⟩ := by
  constructor
  · intro cfg m o pw r1 r2 l fr ps pt
    rfl
  · rfl

theorem upsertOne_single_match (e n : RecipeB) (h : findId e = n.id) :
    upsertOne [e] n = [n] := by
  unfold upsertOne
  have hf : List.findIdx? (fun x => findId x == n.id) [e] = some 0 := by
    simp [List.findIdx?, h]
  rw [hf]
  rfl

theorem upsertOneS_single_match (e n : RecipeS) (h : findIdS e = n.id) :
    upsertOneS [e] n = [n] := by
  unfold upsertOneS
  have hf : List.findIdx? (fun x => findIdS x == n.id) [e] = some 0 := by
    simp [List.findIdx?, h]
  rw [hf]
  rfl

theorem upsertAll_singleton (list : List RecipeB) (r : RawRecipe) (h : r.name ≠ "") :
    upsertAll list [some r] =
      (upsertOne list (normalize r), 1, [(normalize r).id]) := by
  unfold upsertAll
  rw [List.foldl_cons, List.foldl_nil]
  simp [upsertStep, h]

/-- C1: the merge takes every canonical field from the candidate, and because
the normalizer populates every defaulted field, upserting the minimal input
`{name:"Martini"}` onto any existing record with the same derived id leaves
exactly the normalized minimal record — sweetness `"balanced"`, empty
`ingredients`/`base`/`profile`/`tags`, empty `method`/`glass`/`garnish` —
regardless of the previously stored values, in both handler variants. -/
theorem C1_minimal_upsert_resets_defaults :
    (∀ old cand : RecipeB, mergeB old cand = cand) ∧
    (∀ e : RecipeB, findId e = slugStr "Martini" →
      (upsertAll [e] [some minimalMartini]).1 = [normalize minimalMartini]) ∧
    (∀ e : RecipeS, findIdS e = slugifyStr "Martini" →
      upsertOneS [e] (normalizeS minimalMartini) = [normalizeS minimalMartini]) ∧
    (normalize minimalMartini).sweetness = "balanced" ∧
    (normalize minimalMartini).ingredients = [] ∧
    (normalize minimalMartini).base = [] ∧
    (normalize minimalMartini).profile = [] ∧
    (normalize minimalMartini).tags = [] ∧
    (normalize minimalMartini).method = "" ∧
    (normalize minimalMartini).glass = "" ∧
    (normalize minimalMartini).garnish = "" ∧
    (normalizeS minimalMartini).sweetness = "balanced" ∧
    (normalizeS minimalMartini).ingredients = [] ∧
    (normalizeS minimalMartini).base = [] ∧
    (normalizeS minimalMartini).profile = [] ∧
    (normalizeS minimalMartini).tags = .arr [] ∧
    (normalizeS minimalMartini).method = "" ∧
    (normalizeS minimalMartini).glass = "" ∧
    (normalizeS minimalMartini).garnish = "" := by
  refine ⟨fun old cand => rfl, ?_, ?_, by decide⟩
  · intro e he
    rw [upsertAll_singleton [e] minimalMartini (by decide)]
    exact upsertOne_single_match e _ (by rw [he]; decide)
  · intro e he
    exact upsertOneS_single_match e _ (by rw [he]; decide)

/-- C1 witness: the scenario at a concrete fully populated stored record. -/
theorem C1_witness :
    (upsertAll [fullMartini] [some minimalMartini]).1 = [normalize minimalMartini] ∧
    upsertOneS [fullMartiniS] (normalizeS minimalMartini) = [normalizeS minimalMartini] :=
  ⟨C1_minimal_upsert_resets_defaults.2.1 fullMartini (by decide),
   C1_minimal_upsert_resets_defaults.2.2.1 fullMartiniS (by decide)⟩

theorem foldl_upsertStep_spec (incoming : List (Option RawRecipe)) :
    ∀ (list : List RecipeB) (c0 : Nat) (ids0 : List String),
      (incoming.foldl upsertStep (list, c0, ids0)).2.1 =
        c0 + (incoming.filterMap pickId).length ∧
      (incoming.foldl upsertStep (list, c0, ids0)).2.2 =
        ids0 ++ incoming.filterMap pickId := by
  induction incoming with
  | nil =>
    intro list c0 ids0
    simp
  | cons x xs ih =>
    intro list c0 ids0
    cases x with
    | none =>
      rw [List.foldl_cons]
      have hstep : upsertStep (list, c0, ids0) none = (list, c0, ids0) := rfl
      rw [hstep]
      have hp : pickId none = none := rfl
      simpa [List.filterMap_cons, hp] using ih list c0 ids0
    | some r =>
      by_cases h : r.name = ""
      · rw [List.foldl_cons]
        have hstep : upsertStep (list, c0, ids0) (some r) = (list, c0, ids0) := by
          simp [upsertStep, h]
        rw [hstep]
        have hp : pickId (some r) = none := by simp [pickId, h]
        simpa [List.filterMap_cons, hp] using ih list c0 ids0
      · rw [List.foldl_cons]
        have hstep : upsertStep (list, c0, ids0) (some r) =
            (upsertOne list (normalize r), c0 + 1, ids0 ++ [(normalize r).id]) := by
          simp [upsertStep, h]
        rw [hstep]
        have hp : pickId (some r) = some (normalize r).id := by simp [pickId, h]
        obtain ⟨h1, h2⟩ := ih (upsertOne list (normalize r)) (c0 + 1)
          (ids0 ++ [(normalize r).id])
        refine ⟨?_, ?_⟩
        · rw [h1, List.filterMap_cons, hp]
          simp
          omega
        · rw [h2, List.filterMap_cons, hp]
          simp

theorem filterMap_pickId_length (l : List (Option RawRecipe)) :
    (l.filterMap pickId).length = (l.filter isUsable).length := by
  induction l with
  | nil => rfl
  | cons x xs ih =>
    cases x with
    | none => simpa [List.filterMap_cons, List.filter_cons, pickId, isUsable] using ih
    | some r =>
      by_cases h : r.name = ""
      · simpa [List.filterMap_cons, List.filter_cons, pickId, isUsable, h] using ih
      · simpa [List.filterMap_cons, List.filter_cons, pickId, isUsable, h] using ih

theorem commitB_body_okBatch (cfg : Config) (incoming : List (Option RawRecipe))
    (list : List RecipeB) (shaOpt : Option String) (ps : Nat) (pt : String)
    (c : Nat) (ids : List String)
    (h : (commitB cfg incoming list shaOpt ps pt).body = .okBatch c ids) :
    c = (incoming.filter isUsable).length ∧ ids = incoming.filterMap pickId := by
  unfold commitB at h
  by_cases hps : ps < 200 ∨ 300 ≤ ps
  · rw [if_pos hps] at h
    simp at h
  · rw [if_neg hps] at h
    simp only [RespBody.okBatch.injEq] at h
    obtain ⟨h1, h2⟩ := h
    obtain ⟨hc, hi⟩ := foldl_upsertStep_spec incoming list 0 []
    constructor
    · rw [← h1]
      show (upsertAll list incoming).2.1 = _
      rw [show (upsertAll list incoming).2.1 = (incoming.foldl upsertStep (list, 0, [])).2.1
        from rfl, hc, filterMap_pickId_length]
      omega
    · rw [← h2]
      show (upsertAll list incoming).2.2 = _
      rw [show (upsertAll list incoming).2.2 = (incoming.foldl upsertStep (list, 0, [])).2.2
        from rfl, hi]
      simp

/-- C5: the `count` in the success response equals the number of inputs with
a non-empty `name`, inputs lacking a name contribute nothing, and `ids` lists
the derived ids of the accepted inputs in input order. -/
theorem C5_count_and_ids :
    (∀ (list : List RecipeB) (incoming : List (Option RawRecipe)),
      (upsertAll list incoming).2.1 = (incoming.filter isUsable).length ∧
      (upsertAll list incoming).2.2 = incoming.filterMap pickId) ∧
    (∀ (cfg : Config) (req : Request) (fr : FetchResult RecipeB) (ps : Nat) (pt : String)
      (c : Nat) (ids : List String),
      (handlerB cfg req fr ps pt).body = .okBatch c ids →
      c = ((incomingOf req).filter isUsable).length ∧
      ids = (incomingOf req).filterMap pickId) := by
  constructor
  · intro list incoming
    obtain ⟨hc, hi⟩ := foldl_upsertStep_spec incoming list 0 []
    constructor
    · rw [show (upsertAll list incoming).2.1 = (incoming.foldl upsertStep (list, 0, [])).2.1
        from rfl, hc, filterMap_pickId_length]
      omega
    · rw [show (upsertAll list incoming).2.2 = (incoming.foldl upsertStep (list, 0, [])).2.2
        from rfl, hi]
      simp
  · intro cfg req fr ps pt c ids h
    simp only [handlerB] at h
    split at h
    · simp at h
    split at h
    · simp at h
    split at h
    · simp at h
    split at h
    · simp at h
    split at h
    · simp at h
    split at h
    · simp at h
    split at h
    · simp at h
    · exact commitB_body_okBatch _ _ _ _ _ _ _ _ h
    · exact commitB_body_okBatch _ _ _ _ _ _ _ _ h

/-- C5 witness: a batch of three inputs, one of them `null`, yields count 2
and the two derived ids in input order. -/
theorem C5_witness :
    2 = ((incomingOf reqTwoOfThree).filter isUsable).length ∧
    ["banana-daiquiri", "mai-tai"] = (incomingOf reqTwoOfThree).filterMap pickId :=
  C5_count_and_ids.2 cfgOk reqTwoOfThree .notFound 200 "" 2 ["banana-daiquiri", "mai-tai"]
    (by decide)

/-- C4: authentication succeeds iff the supplied password and the configured
secret are both non-empty and equal, and every POST request failing it (past
the method and origin gates, which precede it) is answered 401
`unauthorized` with no store read and no store write, in both variants. -/
theorem C4_auth_contract :
    (∀ p a : String, authOk p a ↔ (p ≠ "" ∧ a ≠ "" ∧ p = a)) ∧
    (∀ (cfg : Config) (req : Request) (fr : FetchResult RecipeB) (ps : Nat) (pt : String),
      req.method = "POST" →
      ¬(cfg.allowedOrigin ≠ "" ∧ req.origin ≠ "" ∧ req.origin ≠ cfg.allowedOrigin) →
      ¬ authOk req.password cfg.adminPassword →
      handlerB cfg req fr ps pt = ⟨401, .err "unauthorized" none, false, none⟩) ∧
    (∀ (cfg : Config) (req : Request) (fr : FetchResult RecipeS) (ps : Nat) (pt : String),
      req.method = "POST" →
      ¬ authOk req.password cfg.adminPassword →
      handlerS cfg req fr ps pt = ⟨401, .err "unauthorized" none, false, none⟩) := by
  refine ⟨?_, ?_, ?_⟩
  · intro p a
    unfold authOk
    constructor
    · rintro ⟨h1, h2⟩
      exact ⟨h1, h2 ▸ h1, h2⟩
    · rintro ⟨h1, _, h3⟩
      exact ⟨h1, h3⟩
  · intro cfg req fr ps pt hm ho ha
    unfold handlerB
    rw [if_neg (by simp [hm]), if_neg (by simp [hm]), if_neg ho, if_pos ha]
  · intro cfg req fr ps pt hm ha
    unfold handlerS
    rw [if_neg (by simp [hm]), if_neg (by simp [hm]), if_pos ha]

/-- C4 witness: a wrong password and an empty password are both rejected with
401 and no store interaction. -/
theorem C4_witness :
    handlerB cfgOk { password := "wrong" } .notFound 200 "" =
      ⟨401, .err "unauthorized" none, false, none⟩ ∧
    handlerS cfgOk { password := "" } .notFound 200 "" =
      ⟨401, .err "unauthorized" none, false, none⟩ :=
  ⟨C4_auth_contract.2.1 cfgOk { password := "wrong" } .notFound 200 "" rfl (by decide)
      (by decide),
   C4_auth_contract.2.2 cfgOk { password := "" } .notFound 200 "" rfl (by decide)⟩

/-- C3 counterexample: an authenticated POST whose non-empty batch contains
no usable recipe (its one element has no name) is answered 200 with count 0,
and a write is performed — not 400 with no write as claimed. -/
theorem C3_counterexample :
    (handlerB cfgOk reqNamelessBatch .notFound 200 "").status = 200 ∧
    (handlerB cfgOk reqNamelessBatch .notFound 200 "").put.isSome = true ∧
    (handlerB cfgOk reqNamelessBatch .notFound 200 "").body = .okBatch 0 [] ∧
    authOk reqNamelessBatch.password cfgOk.adminPassword := by
  refine ⟨by decide, by decide, by decide, by decide⟩

theorem pickId_eq_none_of_not_usable {x : Option RawRecipe} (h : isUsable x = false) :
    pickId x = none := by
  cases x with
  | none => rfl
  | some r =>
    simp only [isUsable, bne_eq_false_iff_eq] at h
    simp [pickId, h]

theorem commitB_outcome (cfg : Config) (incoming : List (Option RawRecipe))
    (list : List RecipeB) (shaOpt : Option String) (ps : Nat) (pt : String)
    (hcnt : (upsertAll list incoming).2.1 = 0)
    (hids : (upsertAll list incoming).2.2 = []) :
    (commitB cfg incoming list shaOpt ps pt).fetched = true ∧
    (commitB cfg incoming list shaOpt ps pt).put.isSome = true ∧
    (200 ≤ ps → ps < 300 →
      (commitB cfg incoming list shaOpt ps pt).status = 200 ∧
      (commitB cfg incoming list shaOpt ps pt).body = .okBatch 0 []) := by
  unfold commitB
  by_cases hps : ps < 200 ∨ 300 ≤ ps
  · rw [if_pos hps]
    exact ⟨rfl, rfl, fun hlo hhi => absurd hps (by omega)⟩
  · rw [if_neg hps]
    refine ⟨rfl, rfl, fun _ _ => ⟨rfl, ?_⟩⟩
    show RespBody.okBatch (upsertAll list incoming).2.1 (upsertAll list incoming).2.2 =
      .okBatch 0 []
    rw [hcnt, hids]

/-- C3 amended: only an empty `incoming` list (no `recipes` array and falsy
`recipe`, or `recipes: []`) is answered 400 `no-recipes` with no read and no
write; the single-form variant answers 400 `bad-recipe` with no read and no
write when `recipe` or its name is missing; a non-empty batch all of whose
elements are unusable instead proceeds to fetch and commit, answering 200
with count 0 and an empty id list. -/
theorem C3_amended_no_usable_input :
    (∀ (cfg : Config) (req : Request) (fr : FetchResult RecipeB) (ps : Nat) (pt : String),
      req.method = "POST" →
      ¬(cfg.allowedOrigin ≠ "" ∧ req.origin ≠ "" ∧ req.origin ≠ cfg.allowedOrigin) →
      authOk req.password cfg.adminPassword →
      (req.recipes = some [] ∨ (req.recipes = none ∧ req.recipe = none)) →
      handlerB cfg req fr ps pt = ⟨400, .err "no-recipes" none, false, none⟩) ∧
    (∀ (cfg : Config) (req : Request) (fr : FetchResult RecipeS) (ps : Nat) (pt : String),
      req.method = "POST" →
      authOk req.password cfg.adminPassword →
      (req.recipe = none ∨ ∃ r, req.recipe = some r ∧ r.name = "") →
      handlerS cfg req fr ps pt = ⟨400, .err "bad-recipe" none, false, none⟩) ∧
    (∀ (cfg : Config) (req : Request) (l : List (Option RawRecipe))
      (fr : FetchResult RecipeB) (ps : Nat) (pt : String),
      req.method = "POST" →
      ¬(cfg.allowedOrigin ≠ "" ∧ req.origin ≠ "" ∧ req.origin ≠ cfg.allowedOrigin) →
      authOk req.password cfg.adminPassword →
      req.recipes = some l → l ≠ [] → (∀ x ∈ l, isUsable x = false) →
      cfg.owner ≠ "" → cfg.repo ≠ "" → cfg.token ≠ "" →
      (∀ d, fr ≠ .failed d) →
      (handlerB cfg req fr ps pt).fetched = true ∧
      (handlerB cfg req fr ps pt).put.isSome = true ∧
      (200 ≤ ps → ps < 300 →
        (handlerB cfg req fr ps pt).status = 200 ∧
        (handlerB cfg req fr ps pt).body = .okBatch 0 [])) := by
  refine ⟨?_, ?_, ?_⟩
  · intro cfg req fr ps pt hm ho ha hin
    unfold handlerB
    rw [if_neg (by simp [hm]), if_neg (by simp [hm]), if_neg ho,
      if_neg (by simp [ha])]
    have hempty : (incomingOf req).isEmpty = true := by
      rcases hin with h | ⟨h1, h2⟩
      · simp [incomingOf, h]
      · simp [incomingOf, h1, h2]
    rw [if_pos hempty]
  · intro cfg req fr ps pt hm ha hin
    unfold handlerS
    rw [if_neg (by simp [hm]), if_neg (by simp [hm]), if_neg (by simp [ha])]
    rcases hin with h | ⟨r, h1, h2⟩
    · rw [h]
    · rw [h1]
      simp [h2]
  · intro cfg req l fr ps pt hm ho ha hl hne hall hw hr ht hnf
    have hinc : incomingOf req = l := by simp [incomingOf, hl]
    have hfm : l.filterMap pickId = [] := by
      rw [List.filterMap_eq_nil_iff]
      intro x hx
      exact pickId_eq_none_of_not_usable (hall x hx)
    have hcnt : ∀ list0 : List RecipeB,
        (upsertAll list0 l).2.1 = 0 ∧ (upsertAll list0 l).2.2 = [] := by
      intro list0
      obtain ⟨h1, h2⟩ := foldl_upsertStep_spec l list0 0 []
      constructor
      · show (l.foldl upsertStep (list0, 0, [])).2.1 = 0
        rw [h1, hfm]
        rfl
      · show (l.foldl upsertStep (list0, 0, [])).2.2 = []
        rw [h2, hfm]
        rfl
    have hlne : ¬ (l.isEmpty = true) := by
      cases l with
      | nil => exact absurd rfl hne
      | cons a as => simp
    have hcfg : ¬ (cfg.owner = "" ∨ cfg.repo = "" ∨ cfg.token = "") :=
      fun h => h.elim hw (fun h2 => h2.elim hr ht)
    cases fr with
    | failed d => exact absurd rfl (hnf d)
    | found parsed sha =>
      have hred : handlerB cfg req (.found parsed sha) ps pt =
          commitB cfg l (parsed.getD []) (if sha = "" then none else some sha) ps pt := by
        unfold handlerB
        rw [if_neg (by simp [hm]), if_neg (by simp [hm]), if_neg ho,
          if_neg (by simp [ha])]
        simp only [hinc]
        rw [if_neg hlne, if_neg hcfg]
      rw [hred]
      exact commitB_outcome cfg l (parsed.getD []) _ ps pt (hcnt _).1 (hcnt _).2
    | notFound =>
      have hred : handlerB cfg req .notFound ps pt =
          commitB cfg l [] none ps pt := by
        unfold handlerB
        rw [if_neg (by simp [hm]), if_neg (by simp [hm]), if_neg ho,
          if_neg (by simp [ha])]
        simp only [hinc]
        rw [if_neg hlne, if_neg hcfg]
      rw [hred]
      exact commitB_outcome cfg l [] none ps pt (hcnt _).1 (hcnt _).2

/-- C3 witness: the amended behaviors at concrete requests. -/
theorem C3_witness :
    handlerB cfgOk { password := "pw" } .notFound 200 "" =
      ⟨400, .err "no-recipes" none, false, none⟩ ∧
    handlerS cfgOk { password := "pw" } .notFound 200 "" =
      ⟨400, .err "bad-recipe" none, false, none⟩ ∧
    (handlerB cfgOk reqNamelessBatch .notFound 200 "").fetched = true ∧
    (handlerB cfgOk reqNamelessBatch .notFound 200 "").put.isSome = true ∧
    (handlerB cfgOk reqNamelessBatch .notFound 200 "").status = 200 := by
  have h3 := C3_amended_no_usable_input.2.2 cfgOk reqNamelessBatch [some {}] .notFound 200 ""
    rfl (by decide) (by decide) rfl (by decide) (by decide) (by decide) (by decide) (by decide)
    (fun d h => FetchResult.noConfusion h)
  exact ⟨C3_amended_no_usable_input.1 cfgOk { password := "pw" } .notFound 200 "" rfl
      (by decide) (by decide) (Or.inr ⟨rfl, rfl⟩),
    C3_amended_no_usable_input.2.1 cfgOk { password := "pw" } .notFound 200 "" rfl (by decide)
      (Or.inl rfl),
    h3.1, h3.2.1, (h3.2.2 (by omega) (by omega)).1⟩

theorem handlerB_failed_put (cfg : Config) (req : Request) (d : String) (ps : Nat)
    (pt : String) : (handlerB cfg req (.failed d) ps pt).put = none := by
  simp only [handlerB]
  split_ifs <;> rfl

theorem handlerB_put_sha_found (cfg : Config) (req : Request)
    (parsed : Option (List RecipeB)) (sha : String) (ps : Nat) (pt : String)
    (preq : PutReq RecipeB)
    (hput : (handlerB cfg req (.found parsed sha) ps pt).put = some preq) :
    preq.sha = if sha = "" then none else some sha := by
  simp only [handlerB] at hput
  split at hput
  · simp at hput
  split at hput
  · simp at hput
  split at hput
  · simp at hput
  split at hput
  · simp at hput
  split at hput
  · simp at hput
  split at hput
  · simp at hput
  unfold commitB at hput
  by_cases hps : ps < 200 ∨ 300 ≤ ps
  · rw [if_pos hps] at hput
    simp only [Option.some.injEq] at hput
    rw [← hput]
  · rw [if_neg hps] at hput
    simp only [Option.some.injEq] at hput
    rw [← hput]

theorem handlerB_put_sha_notFound (cfg : Config) (req : Request) (ps : Nat) (pt : String)
    (preq : PutReq RecipeB)
    (hput : (handlerB cfg req .notFound ps pt).put = some preq) :
    preq.sha = none := by
  simp only [handlerB] at hput
  split at hput
  · simp at hput
  split at hput
  · simp at hput
  split at hput
  · simp at hput
  split at hput
  · simp at hput
  split at hput
  · simp at hput
  split at hput
  · simp at hput
  unfold commitB at hput
  by_cases hps : ps < 200 ∨ 300 ≤ ps
  · rw [if_pos hps] at hput
    simp only [Option.some.injEq] at hput
    rw [← hput]
  · rw [if_neg hps] at hput
    simp only [Option.some.injEq] at hput
    rw [← hput]

/-- C6: whenever the batch handler submits a PUT, the request carries the
version token iff the fetch returned the document (the token the store
reported being non-empty, per its contract), it carries exactly the fetched
token, and none after a not-found; and in the concrete not-found scenario a
single valid submission commits a one-element collection with no token and
answers 200. -/
theorem C6_version_token :
    (∀ (cfg : Config) (req : Request) (fr : FetchResult RecipeB) (ps : Nat) (pt : String)
      (preq : PutReq RecipeB),
      (∀ p s, fr = .found p s → s ≠ "") →
      (handlerB cfg req fr ps pt).put = some preq →
      ((∃ p s, fr = FetchResult.found p s) ↔ preq.sha.isSome = true) ∧
      (∀ p s, fr = .found p s → preq.sha = some s) ∧
      (fr = .notFound → preq.sha = none)) ∧
    (handlerB cfgOk reqMargarita .notFound 200 "").status = 200 ∧
    (handlerB cfgOk reqMargarita .notFound 200 "").put.map
      (fun p => (p.content.length, p.sha)) = some (1, none) := by
  refine ⟨?_, by decide, by decide⟩
  intro cfg req fr ps pt preq hsha hput
  cases fr with
  | failed d =>
    rw [handlerB_failed_put] at hput
    exact absurd hput (by simp)
  | found parsed sha =>
    have hs : sha ≠ "" := hsha parsed sha rfl
    have h1 : preq.sha = some sha := by
      rw [handlerB_put_sha_found cfg req parsed sha ps pt preq hput, if_neg hs]
    refine ⟨⟨fun _ => by rw [h1]; rfl, fun _ => ⟨parsed, sha, rfl⟩⟩, ?_, ?_⟩
    · intro p2 s2 he
      injection he with e1 e2
      rw [h1, e2]
    · intro he
      exact FetchResult.noConfusion he
  | notFound =>
    have h1 : preq.sha = none := handlerB_put_sha_notFound cfg req ps pt preq hput
    refine ⟨⟨?_, ?_⟩, ?_, fun _ => h1⟩
    · rintro ⟨p, s, he⟩
      exact FetchResult.noConfusion he
    · intro hi
      rw [h1] at hi
      exact absurd hi (by simp)
    · intro p s he
      exact FetchResult.noConfusion he

/-- C6 witness: a found fetch with token `"abc123"` puts that token on the
commit. -/
theorem C6_witness : preqMargarita.sha = some "abc123" :=
  (C6_version_token.1 cfgOk reqMargarita fetchFoundMartini 200 "" preqMargarita
    (by intro p s h
        simp only [fetchFoundMartini] at h
        injection h with h1 h2
        rw [← h2]
        decide)
    (by decide)).2.1 (some [fullMartini]) "abc123" rfl

theorem findId_normalize (r : RawRecipe) : findId (normalize r) = (normalize r).id := by
  show strOr (normalize r).id (slugStr (normalize r).name) = (normalize r).id
  unfold strOr
  by_cases hid : (normalize r).id = ""
  · rw [if_pos hid]
    by_cases hr : r.id = ""
    · have hslug : (normalize r).id = slugStr r.name := by
        rw [show (normalize r).id = strOr r.id (slugStr r.name) from rfl]
        unfold strOr
        rw [if_pos hr]
      rw [hslug]
      rfl
    · exfalso
      have hide : (normalize r).id = r.id := by
        rw [show (normalize r).id = strOr r.id (slugStr r.name) from rfl]
        unfold strOr
        rw [if_neg hr]
      rw [hide] at hid
      exact hr hid
  · rw [if_neg hid]

theorem upsertAll_pair (list : List RecipeB) (r1 r2 : RawRecipe)
    (h1 : r1.name ≠ "") (h2 : r2.name ≠ "") :
    (upsertAll list [some r1, some r2]).1 =
      upsertOne (upsertOne list (normalize r1)) (normalize r2) := by
  unfold upsertAll
  rw [List.foldl_cons, List.foldl_cons, List.foldl_nil]
  simp [upsertStep, h1, h2]

theorem upsertOne_append_new (list : List RecipeB) (n : RecipeB)
    (hnone : ∀ x ∈ list, findId x ≠ n.id) :
    upsertOne list n = list ++ [n] := by
  unfold upsertOne
  have hf : List.findIdx? (fun x => findId x == n.id) list = none := by
    rw [List.findIdx?_eq_none_iff]
    intro x hx
    simp [hnone x hx]
  rw [hf]

theorem upsertOne_replace_last (list : List RecipeB) (n1 n2 : RecipeB)
    (hnone : ∀ x ∈ list, findId x ≠ n2.id) (heq : findId n1 = n2.id) :
    upsertOne (list ++ [n1]) n2 = list ++ [n2] := by
  unfold upsertOne
  have hfl : List.findIdx? (fun x => findId x == n2.id) list = none := by
    rw [List.findIdx?_eq_none_iff]
    intro x hx
    simp [hnone x hx]
  have hf : List.findIdx? (fun x => findId x == n2.id) (list ++ [n1]) =
      some list.length := by
    rw [List.findIdx?_append, hfl]
    simp [List.findIdx?, heq]
  rw [hf]
  show (list ++ [n1]).set list.length (mergeB (((list ++ [n1])[list.length]?).getD n2) n2)
      = list ++ [n2]
  rw [show mergeB (((list ++ [n1])[list.length]?).getD n2) n2 = n2 from rfl,
    List.set_append, if_neg (by omega), show list.length - list.length = 0 from by omega]
  rfl

/-- C7: two batch inputs whose derived slugs coincide (for example
`"Dry Martini"` and `"Dry, Martini!"`, both slugifying to `"dry-martini"`)
leave exactly one record with that id in the committed collection, and that
record is the normalization of the later input, so its values win on every
conflicting field. -/
theorem C7_same_slug_last_wins :
    (slugStr "Dry Martini" = "dry-martini" ∧ slugStr "Dry, Martini!" = "dry-martini") ∧
    (∀ (list : List RecipeB) (r1 r2 : RawRecipe),
      r1.name ≠ "" → r2.name ≠ "" →
      (normalize r1).id = (normalize r2).id →
      (∀ x ∈ list, findId x ≠ (normalize r2).id) →
      (sortByName (upsertAll list [some r1, some r2]).1).filter
        (fun x => findId x == (normalize r2).id) = [normalize r2]) := by
  refine ⟨⟨by decide, by decide⟩, ?_⟩
  intro list r1 r2 h1 h2 hid hfree
  have hn1 : findId (normalize r1) = (normalize r2).id := by
    rw [findId_normalize, hid]
  have hn2 : findId (normalize r2) = (normalize r2).id := findId_normalize r2
  rw [upsertAll_pair list r1 r2 h1 h2,
    upsertOne_append_new list (normalize r1)
      (by intro x hx
          rw [show (normalize r1).id = (normalize r2).id from hid]
          exact hfree x hx),
    upsertOne_replace_last list (normalize r1) (normalize r2) hfree hn1]
  have hfl : (list ++ [normalize r2]).filter
      (fun x => findId x == (normalize r2).id) = [normalize r2] := by
    rw [List.filter_append]
    have hnil : list.filter (fun x => findId x == (normalize r2).id) = [] := by
      rw [List.filter_eq_nil_iff]
      intro a ha
      simp [hfree a ha]
    rw [hnil]
    simp [List.filter, hn2]
  have hperm : List.Perm (sortByName (list ++ [normalize r2])) (list ++ [normalize r2]) :=
    List.perm_insertionSort _ _
  have hpf := hperm.filter (fun x => findId x == (normalize r2).id)
  rw [hfl] at hpf
  exact List.perm_singleton.mp hpf

/-- C7 witness: the spec's concrete scenario on an empty collection. -/
theorem C7_witness :
    (sortByName (upsertAll [] [some rawDryFirst, some rawDrySecond]).1).filter
      (fun x => findId x == (normalize rawDrySecond).id) = [normalize rawDrySecond] :=
  C7_same_slug_last_wins.2 [] rawDryFirst rawDrySecond (by decide) (by decide) (by decide)
    (by simp)

end Catalog
